import Mathlib

/-!
Verification of the curve/coordinate conversion core of the yakuza-gmt-blender
repository (src/blender/coordinate_converter.py, src/blender/importer.py,
src/blender/exporter.py), as a shallow embedding in Lean 4.

Conventions of the embedding:
* mathutils `Vector` (3 components) is `Fin 3 → ℚ`; exact rational arithmetic
  stands in for floats, so "within floating-point tolerance" claims are settled
  by exact equalities.
* mathutils `Quaternion` is `Quaternion ℚ` (re = w, imI = x, imJ = y, imK = z);
  the Hamilton product matches mathutils `@`, and `inverted()` is the division
  ring inverse (conjugate divided by the squared norm).
* 4x4 homogeneous matrices built from `Matrix.Translation` and
  `Quaternion.to_matrix().to_4x4()` are represented by their affine
  decomposition `AffMat` (3x3 linear part plus translation column); `@` on such
  matrices is `AffMat.mul` and `.inverted()` is `AffMat.inverted` (Blender
  inverts by adjugate over determinant, which `matInv` reproduces exactly).
* Python functions that can raise on the inputs in question return `Option`
  (`none` models the raised exception).
-/

namespace GMTBlender

/-- 3-component vector value (mathutils `Vector`). -/
abbrev Vec3 : Type := Fin 3 → ℚ

/-- `pos_to_blender(pos) = Vector([-pos[0], pos[2], pos[1]])`
(coordinate_converter.py line 12). -/
def pos_to_blender (pos : Vec3) : Vec3 := ![-pos 0, pos 2, pos 1]

/-- `pos_from_blender(pos) = (-pos[0], pos[2], pos[1])`
(coordinate_converter.py line 16). -/
def pos_from_blender (pos : Vec3) : Vec3 := ![-pos 0, pos 2, pos 1]

/-- `rot_to_blender(rot) = Quaternion([rot[3], -rot[0], rot[2], rot[1]])`
(coordinate_converter.py line 20); the input is an engine-order tuple
(x, y, z, w), the mathutils constructor takes (w, x, y, z). -/
def rot_to_blender (rot : Fin 4 → ℚ) : Quaternion ℚ :=
  ⟨rot 3, -rot 0, rot 2, rot 1⟩

/-- `rot_from_blender(rot) = (-rot[1], rot[3], rot[2], rot[0])`
(coordinate_converter.py line 24); mathutils quaternion indexing is
0 = w, 1 = x, 2 = y, 3 = z, and the output is an engine-order tuple. -/
def rot_from_blender (rot : Quaternion ℚ) : Fin 4 → ℚ :=
  ![-rot.imI, rot.imK, rot.imJ, rot.re]

/-- Helper: `pos_from_blender` undoes `pos_to_blender` exactly. -/
theorem pos_from_to (p : Vec3) : pos_from_blender (pos_to_blender p) = p := by
  funext i
  fin_cases i <;> simp [pos_to_blender, pos_from_blender]

/-- Helper: `rot_from_blender` undoes `rot_to_blender` exactly. -/
theorem rot_from_to (r : Fin 4 → ℚ) : rot_from_blender (rot_to_blender r) = r := by
  funext i
  fin_cases i <;> simp [rot_to_blender, rot_from_blender]

/-- The sum of squared components of an engine-order quaternion tuple. -/
def tupleNormSq (r : Fin 4 → ℚ) : ℚ := r 0 ^ 2 + r 1 ^ 2 + r 2 ^ 2 + r 3 ^ 2

/-- C5: the position coordinate conversion is an exact involution: both
directions apply the same axis permutation/negation (-x, z, y), and composing
`pos_from_blender` after `pos_to_blender` (and the other way round) recovers
the input exactly. -/
theorem c5_pos_involution (p : Vec3) :
    pos_from_blender (pos_to_blender p) = p ∧
    pos_to_blender (pos_from_blender p) = p := by
  refine ⟨pos_from_to p, ?_⟩
  funext i
  fin_cases i <;> simp [pos_to_blender, pos_from_blender]

/-- C6: the rotation coordinate conversion round-trips exactly (hence in
particular up to quaternion sign), and both directions preserve the squared
norm, since they only permute and negate components. -/
theorem c6_rot_roundtrip_norm (r : Fin 4 → ℚ) (q : Quaternion ℚ) :
    rot_from_blender (rot_to_blender r) = r ∧
    Quaternion.normSq (rot_to_blender r) = tupleNormSq r ∧
    tupleNormSq (rot_from_blender q) = Quaternion.normSq q := by
  refine ⟨rot_from_to r, ?_, ?_⟩
  · simp only [rot_to_blender, Quaternion.normSq_def', tupleNormSq]
    ring
  · simp only [rot_from_blender, Quaternion.normSq_def', tupleNormSq]
    simp [Matrix.cons_val_zero, Matrix.cons_val_one]
    ring

/-! ### Field-of-view conversion (coordinate_converter.py lines 45-52)

Python float division by zero raises `ZeroDivisionError`; `pyDiv` models a
division that raises (`none`) when the divisor is zero.  `tan`/`atan` are the
real functions. -/

/-- Python float division: raises `ZeroDivisionError` (here `none`) when the
divisor is exactly zero. -/
noncomputable def pyDiv (a b : ℝ) : Option ℝ :=
  if b = 0 then none else some (a / b)

/-- `fov_to_blender(fov, sensor_height) = (sensor_height / 2) / tan(fov / 2)`
(coordinate_converter.py line 45); the division raises when `tan(fov/2)` is
zero. -/
noncomputable def fov_to_blender (fov sensor_height : ℝ) : Option ℝ :=
  pyDiv (sensor_height / 2) (Real.tan (fov / 2))

/-- `fov_from_blender(fov, sensor_height) = 2 * atan(sensor_height / (2 * fov))`
(coordinate_converter.py line 50); the division raises when `fov` (the focal
length argument) is zero. -/
noncomputable def fov_from_blender (fov sensor_height : ℝ) : Option ℝ :=
  (pyDiv sensor_height (2 * fov)).map (fun r => 2 * Real.arctan r)

/-- C7 counterexample: at the degenerate inputs (`fov = 0`, so
`tan(fov/2) = 0`, and focal length `0`) both conversions raise
`ZeroDivisionError` (modeled as `none`); no sentinel infinity/NaN value is
produced, contradicting the claim that degenerate inputs yield a defined
sentinel value rather than an error. -/
theorem c7_degenerate_raises :
    fov_to_blender 0 100 = none ∧ fov_from_blender 0 100 = none := by
  constructor
  · simp [fov_to_blender, pyDiv]
  · simp [fov_from_blender, pyDiv]

/-- C7 amended: the degenerate inputs `tan(fov/2) = 0` (in `fov_to_blender`)
and `focal = 0` (in `fov_from_blender`) make the conversion raise
`ZeroDivisionError` (modeled as `none`) instead of producing a sentinel; on the
non-degenerate domain `0 < fov < π` the conversion succeeds and the two
directions are exact inverses for `sensor_height = 100`. -/
theorem c7_fov_guarded (fov : ℝ) (h0 : 0 < fov) (hπ : fov < Real.pi) :
    (∀ f, Real.tan (f / 2) = 0 → fov_to_blender f 100 = none) ∧
    (∀ sh, fov_from_blender 0 sh = none) ∧
    (fov_to_blender fov 100).bind (fun t => fov_from_blender t 100) = some fov := by
  have htan : 0 < Real.tan (fov / 2) := by
    apply Real.tan_pos_of_pos_of_lt_pi_div_two (by linarith)
    linarith [Real.pi_pos]
  refine ⟨?_, ?_, ?_⟩
  · intro f hf
    simp [fov_to_blender, pyDiv, hf]
  · intro sh
    simp [fov_from_blender, pyDiv]
  · rw [fov_to_blender, pyDiv, if_neg (ne_of_gt htan)]
    have h50 : (100 : ℝ) / 2 / Real.tan (fov / 2) ≠ 0 := by
      positivity
    rw [Option.some_bind, fov_from_blender, pyDiv, if_neg (by simpa using h50)]
    have harg : (100 : ℝ) / (2 * (100 / 2 / Real.tan (fov / 2))) = Real.tan (fov / 2) := by
      field_simp
      ring
    rw [Option.map_some', harg, Real.arctan_tan (by linarith [Real.pi_pos]) (by linarith)]
    norm_num
    ring

/-- C7 witness: `fov = π/2` is in the non-degenerate domain and the round trip
through both conversions is exact there. -/
theorem c7_fov_guarded_witness :
    0 < Real.pi / 2 ∧ Real.pi / 2 < Real.pi ∧
    (fov_to_blender (Real.pi / 2) 100).bind (fun t => fov_from_blender t 100) =
      some (Real.pi / 2) := by
  have h1 : 0 < Real.pi / 2 := by positivity
  have h2 : Real.pi / 2 < Real.pi := by linarith [Real.pi_pos]
  exact ⟨h1, h2, (c7_fov_guarded (Real.pi / 2) h1 h2).2.2⟩

/-! ### Pattern (hand pose code) conversion
(coordinate_converter.py lines 28-33, exporter.py lines 363-374, 406-407) -/

/-- `pattern1_to_blender(pattern)` keeps the start code of each
`(start_code, end_code)` pair (coordinate_converter.py line 28; the source
wraps each start code in a 1-tuple, modeled here as the bare code). -/
def pattern1_to_blender (pattern : List (ℤ × ℤ)) : List ℤ :=
  pattern.map (fun x => x.1)

/-- `pattern1_from_blender(pattern) = [pattern, pattern[1:] + [pattern[-1]]]`
(coordinate_converter.py line 32); `pattern[-1]` raises `IndexError` on an
empty list (`none`). -/
def pattern1_from_blender (pattern : List ℤ) : Option (List ℤ × List ℤ) :=
  match pattern with
  | [] => none
  | x :: xs => some (x :: xs, xs ++ [(x :: xs).getLast (List.cons_ne_nil x xs)])

/-- The exporter zips the two lists produced by `pattern1_from_blender` into
`(start_code, end_code)` pairs
(`map(lambda s, e: [int(s), int(e)], axes_co[0], axes_co[1])`,
exporter.py lines 370-373). -/
def patternPairs (p : List ℤ × List ℤ) : List (ℤ × ℤ) :=
  List.zip p.1 p.2

/-- Helper: `getD` on an append, index inside the left list. -/
theorem getD_append_left {α : Type} (l l' : List α) (d : α) :
    ∀ i, i < l.length → (l ++ l').getD i d = l.getD i d := by
  induction l with
  | nil => intro i h; exact absurd h (by simp)
  | cons a t ih =>
    intro i h
    cases i with
    | zero => rfl
    | succ j => simpa using ih j (by simpa using h)

/-- Helper: `getD` on an append, index exactly the left length. -/
theorem getD_append_len {α : Type} (l l' : List α) (d : α) :
    (l ++ l').getD l.length d = l'.getD 0 d := by
  induction l with
  | nil => rfl
  | cons a t ih => simpa using ih

/-- Helper: `getD` of a zip is the pair of the `getD`s, in bounds. -/
theorem getD_zip {α β : Type} (da : α) (db : β) :
    ∀ (as' : List α) (bs : List β) (i : ℕ), i < as'.length → i < bs.length →
      (as'.zip bs).getD i (da, db) = (as'.getD i da, bs.getD i db) := by
  intro as'
  induction as' with
  | nil => intro bs i h; exact absurd h (by simp)
  | cons a t ih =>
    intro bs i h1 h2
    cases bs with
    | nil => exact absurd h2 (by simp)
    | cons b tb =>
      cases i with
      | zero => rfl
      | succ j =>
        simpa using ih tb j (by simpa using h1) (by simpa using h2)

/-- Helper: `getLast` agrees with `getD` at the last index. -/
theorem getLast_eq_getD {α : Type} (d : α) :
    ∀ (l : List α) (h : l ≠ []), l.getLast h = l.getD (l.length - 1) d := by
  intro l
  induction l with
  | nil => intro h; exact absurd rfl h
  | cons a t ih =>
    intro h
    cases t with
    | nil => rfl
    | cons b tb =>
      rw [List.getLast_cons (List.cons_ne_nil b tb), ih (List.cons_ne_nil b tb)]
      rfl

/-- Helper: `pattern1_from_blender` on a non-empty code list succeeds, its
pairing has the original codes as start codes, one pair per code. -/
theorem pattern1_from_starts (p : List ℤ) (hp : p ≠ []) :
    ∃ se, pattern1_from_blender p = some se ∧
      (patternPairs se).map Prod.fst = p ∧ (patternPairs se).length = p.length := by
  match p, hp with
  | x :: xs, _ =>
    refine ⟨_, rfl, ?_, ?_⟩
    · rw [patternPairs, List.map_fst_zip]
      simp
    · simp [patternPairs]

/-- C9: for a non-empty list of N pattern codes, `pattern1_from_blender`
paired as in the exporter yields N (start, end) pairs: each end code is the
next code in the sequence, the last pair repeats the final code, and
`pattern1_to_blender` recovers the original codes from the pairs. -/
theorem c9_pattern_pairing (p : List ℤ) (hp : p ≠ []) :
    ∃ se, pattern1_from_blender p = some se ∧
      (patternPairs se).length = p.length ∧
      (∀ i, i + 1 < p.length →
        (patternPairs se).getD i (0, 0) = (p.getD i 0, p.getD (i + 1) 0)) ∧
      (patternPairs se).getD (p.length - 1) (0, 0) = (p.getLast hp, p.getLast hp) ∧
      pattern1_to_blender (patternPairs se) = p := by
  match p, hp with
  | x :: xs, hp =>
    have hlen : (xs ++ [(x :: xs).getLast (List.cons_ne_nil x xs)]).length =
        (x :: xs).length := by simp
    refine ⟨_, rfl, by simp [patternPairs], ?_, ?_, ?_⟩
    · intro i hi
      rw [patternPairs, getD_zip 0 0 _ _ i (by simpa using Nat.lt_of_succ_lt hi)
        (by rw [hlen]; exact Nat.lt_of_succ_lt hi)]
      rw [getD_append_left _ _ _ i (by simpa using hi)]
      rfl
    · rw [patternPairs,
        getD_zip 0 0 _ _ ((x :: xs).length - 1) (by simp) (by rw [hlen]; simp),
        show (x :: xs).length - 1 = xs.length by simp,
        getD_append_len]
      have hx : (x :: xs : List ℤ).getD xs.length 0 = (x :: xs).getLast hp := by
        rw [getLast_eq_getD 0 (x :: xs) hp]
        congr 1
      exact congrArg₂ Prod.mk hx rfl
    · rw [show pattern1_to_blender (patternPairs (x :: xs,
          xs ++ [(x :: xs).getLast (List.cons_ne_nil x xs)])) =
          (patternPairs (x :: xs, xs ++ [(x :: xs).getLast (List.cons_ne_nil x xs)])).map
            Prod.fst from rfl,
        patternPairs, List.map_fst_zip]
      simp

/-- C9 witness: the spec's concrete example `[2, 5, 5]`. -/
theorem c9_pattern_pairing_witness :
    ([2, 5, 5] : List ℤ) ≠ [] ∧
    patternPairs ([2, 5, 5], [5, 5, 5]) = [(2, 5), (5, 5), (5, 5)] ∧
    pattern1_to_blender [(2, 5), (5, 5), (5, 5)] = [2, 5, 5] ∧
    (∃ se, pattern1_from_blender [2, 5, 5] = some se ∧
      (patternPairs se).length = ([2, 5, 5] : List ℤ).length ∧
      (∀ i, i + 1 < ([2, 5, 5] : List ℤ).length →
        (patternPairs se).getD i (0, 0) =
          (([2, 5, 5] : List ℤ).getD i 0, ([2, 5, 5] : List ℤ).getD (i + 1) 0)) ∧
      (patternPairs se).getD (([2, 5, 5] : List ℤ).length - 1) (0, 0) =
        (([2, 5, 5] : List ℤ).getLast (by decide), ([2, 5, 5] : List ℤ).getLast (by decide)) ∧
      pattern1_to_blender (patternPairs se) = [2, 5, 5]) :=
  ⟨by decide, by decide, by decide, c9_pattern_pairing [2, 5, 5] (by decide)⟩

/-- `correct_pattern(pattern)` clamps codes above the old-engine maximum:
`map(lambda x: 0 if x > 17 else x, pattern)` (exporter.py lines 406-407). -/
def correct_pattern (pattern : List ℤ) : List ℤ :=
  pattern.map (fun x => if x > 17 then 0 else x)

/-- The Pat1 branch of `GMTExporter.make_curve` (exporter.py lines 363-374):
for a non-Dragon-Engine preset the codes pass through `correct_pattern`, then
`pattern1_from_blender` produces the two code lists, which are zipped into
`(start, end)` pairs.  `none` models the `IndexError` on an empty code list. -/
def make_curve_pat1 (is_dragon_engine : Bool) (axes_co : List ℤ) : Option (List (ℤ × ℤ)) :=
  let axes_co' := if ¬is_dragon_engine then correct_pattern axes_co else axes_co
  (pattern1_from_blender axes_co').map patternPairs

/-- C10: with a non-Dragon-Engine preset every code above 17 is replaced by 0
before pairing (the export equals the Dragon-Engine export of the clamped
codes, and the emitted start codes are the clamped codes); with the
Dragon-Engine preset all codes pass through unchanged as start codes. -/
theorem c10_pattern_clamp (codes : List ℤ) (hc : codes ≠ []) :
    make_curve_pat1 false codes =
      make_curve_pat1 true (codes.map (fun x => if x > 17 then 0 else x)) ∧
    (∃ prs, make_curve_pat1 true codes = some prs ∧ prs.map Prod.fst = codes) ∧
    (∃ prs, make_curve_pat1 false codes = some prs ∧
      prs.map Prod.fst = codes.map (fun x => if x > 17 then 0 else x)) := by
  refine ⟨rfl, ?_, ?_⟩
  · obtain ⟨se, h1, h2, -⟩ := pattern1_from_starts codes hc
    exact ⟨patternPairs se, by simp [make_curve_pat1, h1], h2⟩
  · obtain ⟨se, h1, h2, -⟩ :=
      pattern1_from_starts (codes.map (fun x => if x > 17 then 0 else x))
        (by simpa using hc)
    exact ⟨patternPairs se, by simp [make_curve_pat1, correct_pattern, h1], h2⟩

/-- C10 witness: codes `[5, 20]`; the old-engine export clamps 20 to 0, the
Dragon-Engine export keeps both codes. -/
theorem c10_pattern_clamp_witness :
    ([5, 20] : List ℤ) ≠ [] ∧
    (make_curve_pat1 false [5, 20] =
      make_curve_pat1 true (([5, 20] : List ℤ).map (fun x => if x > 17 then 0 else x)) ∧
    (∃ prs, make_curve_pat1 true [5, 20] = some prs ∧ prs.map Prod.fst = [5, 20]) ∧
    (∃ prs, make_curve_pat1 false [5, 20] = some prs ∧
      prs.map Prod.fst = ([5, 20] : List ℤ).map (fun x => if x > 17 then 0 else x))) :=
  ⟨by decide, c10_pattern_clamp [5, 20] (by decide)⟩

/-! ### Bone-space transforms (coordinate_converter.py lines 88-181)

`GMTBlenderBoneProps` (from bone_props.py, which is outside src/) is
modelled from the spec: a bone descriptor `{name, parent_name, head, loc,
rot, rot_local}` whose default construction is the identity descriptor
(head = 0, loc = 0, rotations = identity), the documented fallback for a
missing bone. -/

/-- Modelled from the spec: bone descriptor with identity defaults
(bone_props.py is not under src/; §3 of the spec fixes the fallback
descriptor as head = 0, rotations = identity). -/
structure GMTBlenderBoneProps where
  parent_name : String := ""
  head : Vec3 := 0
  loc : Vec3 := 0
  rot : Quaternion ℚ := 1
  rot_local : Quaternion ℚ := 1

instance : Inhabited GMTBlenderBoneProps := ⟨{}⟩

/-- The bone descriptor table (`Dict[str, GMTBlenderBoneProps]`); `dict.get`
is function application. -/
abbrev BonePropsDict := String → Option GMTBlenderBoneProps

/-- `prop = bone_props.get(bone_name, GMTBlenderBoneProps())`. -/
def prop_of (bone_props : BonePropsDict) (bone_name : String) : GMTBlenderBoneProps :=
  (bone_props bone_name).getD default

/-- `parent_head = bone_props.get(prop.parent_name)`, falling back to
`Vector()` when the parent is absent. -/
def parent_head_of (bone_props : BonePropsDict) (prop : GMTBlenderBoneProps) : Vec3 :=
  match bone_props prop.parent_name with
  | some parent => parent.head
  | none => 0

/-- `parent_rot = bone_props.get(prop.parent_name)`, taking `rot_local` and
falling back to the identity `Quaternion()` when the parent is absent. -/
def parent_rot_of (bone_props : BonePropsDict) (prop : GMTBlenderBoneProps) : Quaternion ℚ :=
  match bone_props prop.parent_name with
  | some parent => parent.rot_local
  | none => 1

/-- mathutils `Quaternion.to_matrix()`: the doubled-product rotation matrix of
a (unit) quaternion. -/
def quatToMatrix (q : Quaternion ℚ) : Matrix (Fin 3) (Fin 3) ℚ :=
  Matrix.of
    ![![1 - 2 * (q.imJ ^ 2 + q.imK ^ 2), 2 * (q.imI * q.imJ - q.re * q.imK),
        2 * (q.imI * q.imK + q.re * q.imJ)],
      ![2 * (q.imI * q.imJ + q.re * q.imK), 1 - 2 * (q.imI ^ 2 + q.imK ^ 2),
        2 * (q.imJ * q.imK - q.re * q.imI)],
      ![2 * (q.imI * q.imK - q.re * q.imJ), 2 * (q.imJ * q.imK + q.re * q.imI),
        1 - 2 * (q.imI ^ 2 + q.imJ ^ 2)]]

/-- Blender inverts matrices as adjugate over determinant; exact over ℚ. -/
def matInv (A : Matrix (Fin 3) (Fin 3) ℚ) : Matrix (Fin 3) (Fin 3) ℚ :=
  A.det⁻¹ • A.adjugate

/-- A 4x4 homogeneous matrix in affine form: 3x3 linear part and translation
column. -/
structure AffMat where
  lin : Matrix (Fin 3) (Fin 3) ℚ
  tr : Vec3

/-- `@` on homogeneous 4x4 matrices. -/
def AffMat.mul (A B : AffMat) : AffMat :=
  ⟨A.lin * B.lin, A.lin.mulVec B.tr + A.tr⟩

/-- `.inverted()` on a homogeneous 4x4 matrix (defined when the linear part is
invertible; junk otherwise, matching the partiality of the source). -/
def AffMat.inverted (A : AffMat) : AffMat :=
  ⟨matInv A.lin, -((matInv A.lin).mulVec A.tr)⟩

/-- `.to_translation()`. -/
def AffMat.to_translation (A : AffMat) : Vec3 := A.tr

/-- `Matrix.Translation(v)`. -/
def affTranslation (v : Vec3) : AffMat := ⟨1, v⟩

/-- `rot.to_matrix().to_4x4()`. -/
def quatTo4x4 (q : Quaternion ℚ) : AffMat := ⟨quatToMatrix q, 0⟩

/-- The per-value body of `transform_location_to_blender`
(coordinate_converter.py lines 88-113):
`(pre_mat @ Matrix.Translation(x - head + parent_head) @ post_mat).to_translation()`
with `pre_mat = Matrix.Translation(loc).inverted() @ rot.to_matrix().to_4x4().inverted()`
and `post_mat = rot.to_matrix().to_4x4() @ Matrix.Translation(loc)`. -/
def transform_location_to_point (bone_props : BonePropsDict) (bone_name : String)
    (x : Vec3) : Vec3 :=
  let prop := prop_of bone_props bone_name
  let head := prop.head
  let parent_head := parent_head_of bone_props prop
  let loc := prop.loc
  let rot := prop.rot
  let pre_mat := AffMat.mul (affTranslation loc).inverted (quatTo4x4 rot).inverted
  let post_mat := AffMat.mul (quatTo4x4 rot) (affTranslation loc)
  (AffMat.mul (AffMat.mul pre_mat (affTranslation (x - head + parent_head))) post_mat).to_translation

/-- `transform_location_to_blender` maps the per-value body over `values`. -/
def transform_location_to_blender (bone_props : BonePropsDict) (bone_name : String)
    (values : List Vec3) : List Vec3 :=
  values.map (transform_location_to_point bone_props bone_name)

/-- The per-value body of `transform_location_from_blender`
(coordinate_converter.py lines 134-163):
`pos_from_blender((pre_mat @ Matrix.Translation(x) @ post_mat).to_translation() + head - parent_head)`
with `pre_mat = rot.to_matrix().to_4x4() @ Matrix.Translation(loc)` and
`post_mat = Matrix.Translation(loc).inverted() @ rot.to_matrix().to_4x4().inverted()`. -/
def transform_location_from_point (bone_props : BonePropsDict) (bone_name : String)
    (x : Vec3) : Vec3 :=
  let prop := prop_of bone_props bone_name
  let head := prop.head
  let parent_head := parent_head_of bone_props prop
  let loc := prop.loc
  let rot := prop.rot
  let pre_mat := AffMat.mul (quatTo4x4 rot) (affTranslation loc)
  let post_mat := AffMat.mul (affTranslation loc).inverted (quatTo4x4 rot).inverted
  pos_from_blender
    ((AffMat.mul (AffMat.mul pre_mat (affTranslation x)) post_mat).to_translation
      + head - parent_head)

/-- `transform_location_from_blender` maps the per-value body over `values`. -/
def transform_location_from_blender (bone_props : BonePropsDict) (bone_name : String)
    (values : List Vec3) : List Vec3 :=
  values.map (transform_location_from_point bone_props bone_name)

/-- The per-value body of `transform_rotation_to_blender`
(coordinate_converter.py lines 116-131): `pre_quat @ x @ post_quat` with
`pre_quat = rot.inverted() @ parent_rot` and
`post_quat = rot_local.inverted() @ parent_rot.inverted() @ rot`. -/
def transform_rotation_to_point (bone_props : BonePropsDict) (bone_name : String)
    (x : Quaternion ℚ) : Quaternion ℚ :=
  let prop := prop_of bone_props bone_name
  let parent_rot := parent_rot_of bone_props prop
  let rot := prop.rot
  let rot_local := prop.rot_local
  let pre_quat := rot⁻¹ * parent_rot
  let post_quat := rot_local⁻¹ * parent_rot⁻¹ * rot
  pre_quat * x * post_quat

/-- `transform_rotation_to_blender` maps the per-value body over `values`. -/
def transform_rotation_to_blender (bone_props : BonePropsDict) (bone_name : String)
    (values : List (Quaternion ℚ)) : List (Quaternion ℚ) :=
  values.map (transform_rotation_to_point bone_props bone_name)

/-- The per-value body of `transform_rotation_from_blender`
(coordinate_converter.py lines 166-181):
`rot_from_blender(pre_quat @ x @ post_quat)` with
`pre_quat = parent_rot.inverted() @ rot` and
`post_quat = rot.inverted() @ parent_rot @ rot_local`. -/
def transform_rotation_from_point (bone_props : BonePropsDict) (bone_name : String)
    (x : Quaternion ℚ) : Fin 4 → ℚ :=
  let prop := prop_of bone_props bone_name
  let parent_rot := parent_rot_of bone_props prop
  let rot := prop.rot
  let rot_local := prop.rot_local
  let pre_quat := parent_rot⁻¹ * rot
  let post_quat := rot⁻¹ * parent_rot * rot_local
  rot_from_blender (pre_quat * x * post_quat)

/-- `transform_rotation_from_blender` maps the per-value body over `values`. -/
def transform_rotation_from_blender (bone_props : BonePropsDict) (bone_name : String)
    (values : List (Quaternion ℚ)) : List (Fin 4 → ℚ) :=
  values.map (transform_rotation_from_point bone_props bone_name)

/-- Helper: the determinant of the rotation matrix of a unit quaternion is 1. -/
theorem det_quatToMatrix_of_normSq {q : Quaternion ℚ}
    (h : Quaternion.normSq q = 1) : (quatToMatrix q).det = 1 := by
  have h' : q.re ^ 2 + q.imI ^ 2 + q.imJ ^ 2 + q.imK ^ 2 = 1 := by
    simpa [Quaternion.normSq_def'] using h
  simp [quatToMatrix, Matrix.det_fin_three]
  linear_combination (4 * q.imI ^ 2 + 4 * q.imJ ^ 2 + 4 * q.imK ^ 2) * h'

/-- Helper: right inverse for `matInv`. -/
theorem mul_matInv_self {A : Matrix (Fin 3) (Fin 3) ℚ} (h : A.det ≠ 0) :
    A * matInv A = 1 := by
  rw [matInv, Matrix.mul_smul, Matrix.mul_adjugate, smul_smul,
    inv_mul_cancel₀ h, one_smul]

/-- Helper: left inverse for `matInv`. -/
theorem matInv_mul_self {A : Matrix (Fin 3) (Fin 3) ℚ} (h : A.det ≠ 0) :
    matInv A * A = 1 := by
  rw [matInv, Matrix.smul_mul, Matrix.adjugate_mul, smul_smul,
    inv_mul_cancel₀ h, one_smul]

/-- Helper: `matInv` of the identity. -/
theorem matInv_one : matInv (1 : Matrix (Fin 3) (Fin 3) ℚ) = 1 := by
  rw [matInv, Matrix.det_one, Matrix.adjugate_one, inv_one, one_smul]

/-- Helper: a quaternion of unit squared norm is nonzero. -/
theorem quat_ne_zero_of_normSq {q : Quaternion ℚ} (h : Quaternion.normSq q = 1) :
    q ≠ 0 := by
  intro h0
  rw [h0] at h
  simp at h

/-- Helper: a unit quaternion's rotation matrix has nonzero determinant. -/
theorem det_ne_zero_of_normSq {q : Quaternion ℚ} (h : Quaternion.normSq q = 1) :
    (quatToMatrix q).det ≠ 0 := by
  rw [det_quatToMatrix_of_normSq h]
  norm_num

/-- Helper: the location round trip at a single value is the identity once
the coordinate maps are composed around it. -/
theorem transform_location_point_roundtrip (bone_props : BonePropsDict)
    (bone_name : String)
    (hdet : (quatToMatrix (prop_of bone_props bone_name).rot).det ≠ 0) (x : Vec3) :
    transform_location_from_point bone_props bone_name
      (transform_location_to_point bone_props bone_name (pos_to_blender x)) = x := by
  have hRS := mul_matInv_self hdet
  have hSR := matInv_mul_self hdet
  rw [transform_location_to_point, transform_location_from_point]
  simp only [AffMat.mul, AffMat.inverted, AffMat.to_translation, affTranslation,
    quatTo4x4, matInv_one, Matrix.one_mulVec, Matrix.mulVec_zero, Matrix.mul_one,
    Matrix.one_mul, add_zero, zero_add, neg_zero, Matrix.mulVec_add,
    Matrix.mulVec_neg, Matrix.mulVec_mulVec, hRS, hSR]
  convert pos_from_to x using 2
  abel

/-- Helper: the rotation round trip at a single value reduces to
`rot_from_blender`, as the pre/post quaternions of the two directions cancel
in order. -/
theorem transform_rotation_point_roundtrip (bone_props : BonePropsDict)
    (bone_name : String)
    (hr : (prop_of bone_props bone_name).rot ≠ 0)
    (hl : (prop_of bone_props bone_name).rot_local ≠ 0)
    (hp : parent_rot_of bone_props (prop_of bone_props bone_name) ≠ 0)
    (y : Quaternion ℚ) :
    transform_rotation_from_point bone_props bone_name
      (transform_rotation_to_point bone_props bone_name y) = rot_from_blender y := by
  rw [transform_rotation_to_point, transform_rotation_from_point]
  simp only [mul_assoc, mul_inv_cancel_left₀ hr, inv_mul_cancel_left₀ hp,
    inv_mul_cancel₀ hl, mul_one]

/-- C1: for every bone descriptor table (with unit rest rotations, as produced
from an armature), bone name and value lists, the from-editor transforms undo
the to-editor transforms exactly, with the `pos_to_blender`/`rot_to_blender`
coordinate maps applied on the way in as in the import pipeline and the
`pos_from_blender`/`rot_from_blender` maps applied inside the export
transforms; exact rational equality implies the claimed 1e-5 tolerance. -/
theorem c1_bone_space_roundtrip (bone_props : BonePropsDict) (bone_name : String)
    (locs : List Vec3) (rots : List (Fin 4 → ℚ))
    (hrot : Quaternion.normSq (prop_of bone_props bone_name).rot = 1)
    (hrot_local : Quaternion.normSq (prop_of bone_props bone_name).rot_local = 1)
    (hparent :
      Quaternion.normSq (parent_rot_of bone_props (prop_of bone_props bone_name)) = 1) :
    transform_location_from_blender bone_props bone_name
      (transform_location_to_blender bone_props bone_name (locs.map pos_to_blender)) =
      locs ∧
    transform_rotation_from_blender bone_props bone_name
      (transform_rotation_to_blender bone_props bone_name (rots.map rot_to_blender)) =
      rots := by
  constructor
  · rw [transform_location_to_blender, transform_location_from_blender,
      List.map_map, List.map_map,
      show (transform_location_from_point bone_props bone_name ∘
          transform_location_to_point bone_props bone_name) ∘ pos_to_blender = id from
        funext fun x => transform_location_point_roundtrip bone_props bone_name
          (det_ne_zero_of_normSq hrot) x,
      List.map_id]
  · rw [transform_rotation_to_blender, transform_rotation_from_blender,
      List.map_map, List.map_map,
      show (transform_rotation_from_point bone_props bone_name ∘
          transform_rotation_to_point bone_props bone_name) ∘ rot_to_blender = id from
        funext fun r => by
          rw [Function.comp_apply, Function.comp_apply,
            transform_rotation_point_roundtrip bone_props bone_name
              (quat_ne_zero_of_normSq hrot) (quat_ne_zero_of_normSq hrot_local)
              (quat_ne_zero_of_normSq hparent) (rot_to_blender r),
            rot_from_to]
          rfl,
      List.map_id]

/-- C1 witness: the empty descriptor table (every lookup falls back to the
identity descriptor) with one position and one rotation value. -/
theorem c1_bone_space_roundtrip_witness :
    Quaternion.normSq (prop_of (fun _ => none) "spine").rot = 1 ∧
    Quaternion.normSq (prop_of (fun _ => none) "spine").rot_local = 1 ∧
    Quaternion.normSq (parent_rot_of (fun _ => none) (prop_of (fun _ => none) "spine")) = 1 ∧
    transform_location_from_blender (fun _ => none) "spine"
      (transform_location_to_blender (fun _ => none) "spine"
        (([![1, 2, 3]] : List Vec3).map pos_to_blender)) = [![1, 2, 3]] ∧
    transform_rotation_from_blender (fun _ => none) "spine"
      (transform_rotation_to_blender (fun _ => none) "spine"
        (([![0, 0, 0, 1]] : List (Fin 4 → ℚ)).map rot_to_blender)) = [![0, 0, 0, 1]] := by
  have h1 : Quaternion.normSq (prop_of (fun _ => none) "spine").rot = 1 := by
    simp [prop_of, default]
  have h2 : Quaternion.normSq (prop_of (fun _ => none) "spine").rot_local = 1 := by
    simp [prop_of, default]
  have h3 : Quaternion.normSq
      (parent_rot_of (fun _ => none) (prop_of (fun _ => none) "spine")) = 1 := by
    simp [parent_rot_of]
  obtain ⟨hl, hr⟩ := c1_bone_space_roundtrip (fun _ => none) "spine"
    [![1, 2, 3]] [![0, 0, 0, 1]] h1 h2 h3
  exact ⟨h1, h2, h3, hl, hr⟩

/-! ### Curve model and merge (importer.py lines 374-453)

`GMTCurve`, `GMTKeyframe` and `get_end_frame` live in gmt_lib, which is not
under src/; the data shapes are modelled from the spec (§3: a curve is a kind
tag plus an ordered keyframe list; a keyframe is a frame number plus a value).
`add_curve` itself (importer.py lines 392-453) is embedded generically in the
value type: the LOCATION instantiation uses vector addition and linear
interpolation, the ROTATION instantiation uses the Hamilton product and
spherical interpolation.  mathutils `slerp` is transcendental, so the
ROTATION instantiation is parameterized by the interpolation function
`qslerp`; every theorem below holds for all `qslerp`. -/

/-- Curve kind tag (`GMTCurveType`). -/
inductive GMTCurveType where
  | LOCATION
  | ROTATION
  | PATTERN_HAND
deriving DecidableEq, Repr

/-- Modelled from the spec: a keyframe is a frame number plus a value
(gmt_lib's `GMTKeyframe` is not under src/). -/
structure GMTKeyframe (V : Type) where
  frame : ℕ
  value : V
deriving DecidableEq, Repr

/-- Modelled from the spec: a curve is a kind tag plus an ordered keyframe
list (gmt_lib's `GMTCurve` is not under src/). -/
structure GMTCurve (V : Type) where
  type : GMTCurveType
  keyframes : List (GMTKeyframe V)
deriving DecidableEq, Repr

/-- Modelled from the spec: `get_end_frame` returns the curve's last
keyframe's frame (`last_frame` in §4.3), 0 for an empty curve (gmt_lib is not
under src/). -/
def get_end_frame {V : Type} (kfs : List (GMTKeyframe V)) : ℕ :=
  (kfs.map GMTKeyframe.frame).getLastD 0

/-- `curve_dict.get(i)`: the value of the keyframe at frame `i`, if any
(`curve_dict = \x7bkf.frame: kf.value for kf in curve.keyframes\x7d`). -/
def kf_lookup {V : Type} (kfs : List (GMTKeyframe V)) (i : ℕ) : Option V :=
  (kfs.find? (fun kf => kf.frame == i)).map GMTKeyframe.value

/-- The `v1 is None` branch of `add_curve` (importer.py lines 436-444): find
the last keyframe frame below `i` (defaulting to the first keyframe's frame)
and the first above `i` (defaulting to the last keyframe's frame), and
interpolate, or take the single value when the two frames coincide. -/
def interp_value {V : Type} [Inhabited V] (lerp : V → V → ℚ → V)
    (kfs : List (GMTKeyframe V)) (i : ℕ) : V :=
  let frames := kfs.map GMTKeyframe.frame
  let curve_min := frames.headD 0
  let curve_max := frames.getLastD 0
  let less := (frames.reverse.find? (fun k => decide (k < i))).getD curve_min
  let more := (frames.find? (fun k => decide (i < k))).getD curve_max
  if less ≠ more then
    lerp ((kf_lookup kfs less).getD default) ((kf_lookup kfs more).getD default)
      (((i : ℚ) - (less : ℚ)) / ((more : ℚ) - (less : ℚ)))
  else (kf_lookup kfs less).getD default

/-- The dense merge pass of `add_curve` (importer.py lines 418-453), generic
in the value type: for every integer frame from 0 to the larger end frame, if
either curve has an explicit keyframe there, emit `add v1 v2` where a missing
side is interpolated; frames with no explicit keyframe on either side are
omitted.  `none` models the `IndexError` raised by `curve.keyframes[0]` /
`other.keyframes[0]` on an empty keyframe list. -/
def add_curve_core {V : Type} [Inhabited V] (add : V → V → V) (lerp : V → V → ℚ → V)
    (curve other : List (GMTKeyframe V)) : Option (List (GMTKeyframe V)) :=
  if curve.isEmpty || other.isEmpty then none
  else some <|
    (List.range (max (get_end_frame curve) (get_end_frame other) + 1)).filterMap fun i =>
      let v1 := kf_lookup curve i
      let v2 := kf_lookup other i
      if v1.isNone && v2.isNone then none
      else some ⟨i, add (v1.getD (interp_value lerp curve i))
                        (v2.getD (interp_value lerp other i))⟩

/-- `add(v1, v2) = v1 + v2` for LOCATION curves. -/
def vadd (v1 v2 : Vec3) : Vec3 := v1 + v2

/-- mathutils `v1.lerp(v2, f) = v1 + f * (v2 - v1)`. -/
def vlerp (v1 v2 : Vec3) (f : ℚ) : Vec3 := v1 + f • (v2 - v1)

/-- `add(v1, v2) = v1 @ v2` for ROTATION curves (Hamilton product). -/
def qmul (q1 q2 : Quaternion ℚ) : Quaternion ℚ := q1 * q2

/-- The LOCATION branch of `add_curve` (importer.py lines 401-407): an empty
target curve is seeded with `GMTKeyframe(0, Vector())` before the dense pass;
both curves must be LOCATION curves (a kind mismatch raises, modeled as
`none`). -/
def add_curve_loc (curve other : GMTCurve Vec3) : Option (GMTCurve Vec3) :=
  if curve.type = GMTCurveType.LOCATION ∧ other.type = GMTCurveType.LOCATION then
    let kfs := if curve.keyframes.isEmpty then [⟨0, 0⟩] else curve.keyframes
    (add_curve_core vadd vlerp kfs other.keyframes).map (⟨curve.type, ·⟩)
  else none

/-- The ROTATION branch of `add_curve` (importer.py lines 408-414): an empty
target curve is seeded with `GMTKeyframe(0, Quaternion())` (the identity);
`qslerp` stands for mathutils `slerp`. -/
def add_curve_rot (qslerp : Quaternion ℚ → Quaternion ℚ → ℚ → Quaternion ℚ)
    (curve other : GMTCurve (Quaternion ℚ)) : Option (GMTCurve (Quaternion ℚ)) :=
  if curve.type = GMTCurveType.ROTATION ∧ other.type = GMTCurveType.ROTATION then
    let kfs := if curve.keyframes.isEmpty then [⟨0, 1⟩] else curve.keyframes
    (add_curve_core qmul qslerp kfs other.keyframes).map (⟨curve.type, ·⟩)
  else none

/-- Modelled from the spec: a bone's location and rotation curves (gmt_lib's
`GMTBone` is not under src/; only these two curves take part in
`merge_vector`). -/
structure GMTBone where
  location : GMTCurve Vec3
  rotation : GMTCurve (Quaternion ℚ)

/-- Vector-version tag (`GMTVectorVersion`). -/
inductive GMTVectorVersion where
  | NO_VECTOR
  | OLD_VECTOR
  | DRAGON_VECTOR
deriving DecidableEq, Repr

/-- A freshly constructed empty bone pair, as assigned by
`vector_bone.location = GMTCurve(GMTCurveType.LOCATION)` and
`vector_bone.rotation = GMTCurve(GMTCurveType.ROTATION)`
(importer.py lines 388-389). -/
def resetVectorBone : GMTBone :=
  ⟨⟨GMTCurveType.LOCATION, []⟩, ⟨GMTCurveType.ROTATION, []⟩⟩

/-- `merge_vector(center_bone, vector_bone, vector_version, is_auth)`
(importer.py lines 374-389).  Returns the updated `(center_bone, vector_bone)`
pair; `none` models an exception escaping from `add_curve`. -/
def merge_vector (qslerp : Quaternion ℚ → Quaternion ℚ → ℚ → Quaternion ℚ)
    (center_bone vector_bone : Option GMTBone) (vector_version : GMTVectorVersion)
    (is_auth : Bool) : Option (Option GMTBone × Option GMTBone) :=
  match center_bone, vector_bone with
  | some center, some vector =>
    if vector_version = GMTVectorVersion.NO_VECTOR then
      some (some center, some vector)
    else if (vector_version = GMTVectorVersion.OLD_VECTOR ∧ is_auth = false) ∨
        vector_version = GMTVectorVersion.DRAGON_VECTOR then
      match add_curve_loc center.location vector.location,
          add_curve_rot qslerp center.rotation vector.rotation with
      | some new_location, some new_rotation =>
        some (some ⟨new_location, new_rotation⟩, some resetVectorBone)
      | _, _ => none
    else
      some (some center, some resetVectorBone)
  | _, _ => some (center_bone, vector_bone)

/-- The data-model invariant on a curve's keyframes: frames are strictly
increasing (hence unique). -/
def sortedKF {V : Type} (kfs : List (GMTKeyframe V)) : Prop :=
  List.Chain' (fun a b => a.frame < b.frame) kfs

/-- Helper: in a strictly increasing list, every element is at most the
`getLastD`. -/
theorem le_getLastD_of_chain : ∀ (l : List ℕ), List.Chain' (· < ·) l →
    ∀ x ∈ l, ∀ d, x ≤ l.getLastD d := by
  intro l
  induction l with
  | nil => intro _ x hx; exact absurd hx (by simp)
  | cons a t ih =>
    intro hch x hx d
    rw [List.getLastD_cons]
    rcases List.mem_cons.1 hx with rfl | hxt
    · cases t with
      | nil => simp
      | cons b tb =>
        have hab : x < b.succ ⊔ b := by
          have := List.chain'_cons.1 hch
          omega
        have hb : b ≤ (b :: tb).getLastD x :=
          ih (List.chain'_cons.1 hch).2 b (by simp) x
        have : x < b := (List.chain'_cons.1 hch).1
        omega
    · exact ih hch.tail x hxt a

/-- Helper: every keyframe's frame is at most the curve's end frame. -/
theorem frame_le_end {V : Type} (kfs : List (GMTKeyframe V)) (hs : sortedKF kfs) :
    ∀ kf ∈ kfs, kf.frame ≤ get_end_frame kfs := by
  intro kf hkf
  have hch : List.Chain' (· < ·) (kfs.map GMTKeyframe.frame) := by
    rw [List.chain'_map]
    exact hs
  exact le_getLastD_of_chain _ hch kf.frame (List.mem_map_of_mem _ hkf) 0

/-- Helper: `kf_lookup` succeeds exactly on the frames that hold a keyframe. -/
theorem kf_lookup_isSome {V : Type} (kfs : List (GMTKeyframe V)) (i : ℕ) :
    (kf_lookup kfs i).isSome = true ↔ ∃ kf ∈ kfs, kf.frame = i := by
  rw [kf_lookup, Option.isSome_map', List.find?_isSome]
  simp

instance {V : Type} : IsTrans (GMTKeyframe V) (fun a b => a.frame < b.frame) :=
  ⟨fun _ _ _ h1 h2 => lt_trans h1 h2⟩

/-- Helper: on a strictly sorted keyframe list, `kf_lookup` at a keyframe's
frame returns that keyframe's value. -/
theorem kf_lookup_mem {V : Type} :
    ∀ (kfs : List (GMTKeyframe V)), sortedKF kfs →
      ∀ kf ∈ kfs, kf_lookup kfs kf.frame = some kf.value := by
  intro kfs
  induction kfs with
  | nil => intro _ kf hkf; exact absurd hkf (by simp)
  | cons a t ih =>
    intro hs kf hkf
    have hpw : List.Pairwise (fun x y : GMTKeyframe V => x.frame < y.frame) (a :: t) :=
      (List.chain'_iff_pairwise).1 hs
    rcases List.mem_cons.1 hkf with rfl | hkt
    · rw [kf_lookup, List.find?_cons_of_pos _ (by simp)]
      rfl
    · have hne : (a.frame == kf.frame) = false := by
        have := (List.pairwise_cons.1 hpw).1 kf hkt
        simp
        omega
      rw [kf_lookup, List.find?_cons_of_neg _ (by simp [hne])]
      exact ih hs.tail kf hkt

/-- C2 core: merging two non-empty sorted keyframe lists succeeds and the
result holds a keyframe exactly at the union of the two frame sets. -/
theorem add_curve_core_frames {V : Type} [Inhabited V]
    (add : V → V → V) (lerp : V → V → ℚ → V) (c o : List (GMTKeyframe V))
    (hc : c ≠ []) (ho : o ≠ []) (hsc : sortedKF c) (hso : sortedKF o) :
    ∃ res, add_curve_core add lerp c o = some res ∧
      ∀ i : ℕ, (∃ kf ∈ res, kf.frame = i) ↔
        ((∃ kf ∈ c, kf.frame = i) ∨ (∃ kf ∈ o, kf.frame = i)) := by
  have hc' : c.isEmpty = false := by simpa [List.isEmpty_iff] using hc
  have ho' : o.isEmpty = false := by simpa [List.isEmpty_iff] using ho
  rw [add_curve_core, if_neg (by simp [hc', ho'])]
  refine ⟨_, rfl, fun i => ?_⟩
  constructor
  · rintro ⟨kf, hmem, hframe⟩
    obtain ⟨j, hj, hstep⟩ := List.mem_filterMap.1 hmem
    by_cases h : ((kf_lookup c j).isNone && (kf_lookup o j).isNone) = true
    · rw [if_pos h] at hstep
      exact absurd hstep (by simp)
    · rw [if_neg h] at hstep
      have hji : j = i := by
        have := congrArg GMTKeyframe.frame (Option.some.inj hstep)
        simpa [hframe] using this
      subst hji
      rcases Bool.and_eq_false_iff.1 (Bool.eq_false_iff.2 h) with h1 | h1
      · exact Or.inl ((kf_lookup_isSome c j).1 (by simpa [Option.isNone_eq_false_iff] using h1))
      · exact Or.inr ((kf_lookup_isSome o j).1 (by simpa [Option.isNone_eq_false_iff] using h1))
  · intro hik
    have hlt : i < max (get_end_frame c) (get_end_frame o) + 1 := by
      rcases hik with ⟨kf, hmem, hframe⟩ | ⟨kf, hmem, hframe⟩
      · have := frame_le_end c hsc kf hmem
        omega
      · have := frame_le_end o hso kf hmem
        omega
    have hsome : ((kf_lookup c i).isNone && (kf_lookup o i).isNone) = false := by
      rcases hik with ⟨kf, hmem, hframe⟩ | ⟨kf, hmem, hframe⟩
      · have hs1 : (kf_lookup c i).isSome = true := (kf_lookup_isSome c i).2 ⟨kf, hmem, hframe⟩
        cases hx : kf_lookup c i with
        | none => rw [hx] at hs1; simp at hs1
        | some v => simp [hx]
      · have hs1 : (kf_lookup o i).isSome = true := (kf_lookup_isSome o i).2 ⟨kf, hmem, hframe⟩
        cases hx : kf_lookup o i with
        | none => rw [hx] at hs1; simp at hs1
        | some v => simp [hx]
    refine ⟨⟨i, add ((kf_lookup c i).getD (interp_value lerp c i))
      ((kf_lookup o i).getD (interp_value lerp o i))⟩, ?_, rfl⟩
    exact List.mem_filterMap.2 ⟨i, List.mem_range.2 hlt, by rw [if_neg (by simp [hsome])]⟩

/-- C2: for two non-empty curves of the same (mergeable) kind, `add_curve`
succeeds and the merged curve holds a keyframe exactly at the union of the two
input frame sets: every frame with an explicit keyframe in either curve
appears, every other integer frame is absent.  Stated for both the LOCATION
and the ROTATION instantiation (the latter for every interpolation function
`qslerp`). -/
theorem c2_merge_frame_union
    (qslerp : Quaternion ℚ → Quaternion ℚ → ℚ → Quaternion ℚ)
    (cl ol : GMTCurve Vec3) (cr orr : GMTCurve (Quaternion ℚ))
    (htcl : cl.type = GMTCurveType.LOCATION) (htol : ol.type = GMTCurveType.LOCATION)
    (htcr : cr.type = GMTCurveType.ROTATION) (htor : orr.type = GMTCurveType.ROTATION)
    (hcl : cl.keyframes ≠ []) (hol : ol.keyframes ≠ [])
    (hcr : cr.keyframes ≠ []) (hor : orr.keyframes ≠ [])
    (hscl : sortedKF cl.keyframes) (hsol : sortedKF ol.keyframes)
    (hscr : sortedKF cr.keyframes) (hsor : sortedKF orr.keyframes) :
    (∃ res, add_curve_loc cl ol = some res ∧
      ∀ i : ℕ, (∃ kf ∈ res.keyframes, kf.frame = i) ↔
        ((∃ kf ∈ cl.keyframes, kf.frame = i) ∨ (∃ kf ∈ ol.keyframes, kf.frame = i))) ∧
    (∃ res, add_curve_rot qslerp cr orr = some res ∧
      ∀ i : ℕ, (∃ kf ∈ res.keyframes, kf.frame = i) ↔
        ((∃ kf ∈ cr.keyframes, kf.frame = i) ∨ (∃ kf ∈ orr.keyframes, kf.frame = i))) := by
  constructor
  · obtain ⟨res0, hres0, hiff⟩ :=
      add_curve_core_frames vadd vlerp cl.keyframes ol.keyframes hcl hol hscl hsol
    refine ⟨⟨cl.type, res0⟩, ?_, hiff⟩
    rw [add_curve_loc, if_pos ⟨htcl, htol⟩, if_neg (by simpa [List.isEmpty_iff] using hcl)]
    simp only [hres0, Option.map_some']
  · obtain ⟨res0, hres0, hiff⟩ :=
      add_curve_core_frames qmul qslerp cr.keyframes orr.keyframes hcr hor hscr hsor
    refine ⟨⟨cr.type, res0⟩, ?_, hiff⟩
    rw [add_curve_rot, if_pos ⟨htcr, htor⟩, if_neg (by simpa [List.isEmpty_iff] using hcr)]
    simp only [hres0, Option.map_some']

/-- C2 witness: the spec's concrete frame sets: curves with keyframes at
frames 0, 5, 10 and 0, 3, 10 merge into exactly the union of frames. -/
theorem c2_merge_frame_union_witness :
    (∃ res, add_curve_loc
        ⟨GMTCurveType.LOCATION, [⟨0, ![1, 0, 0]⟩, ⟨5, ![2, 0, 0]⟩, ⟨10, ![3, 0, 0]⟩]⟩
        ⟨GMTCurveType.LOCATION, [⟨0, ![1, 1, 1]⟩, ⟨3, ![0, 2, 0]⟩, ⟨10, ![0, 0, 3]⟩]⟩ =
        some res ∧
      ∀ i : ℕ, (∃ kf ∈ res.keyframes, kf.frame = i) ↔
        ((∃ kf ∈ ([⟨0, ![1, 0, 0]⟩, ⟨5, ![2, 0, 0]⟩, ⟨10, ![3, 0, 0]⟩] :
            List (GMTKeyframe Vec3)), kf.frame = i) ∨
         (∃ kf ∈ ([⟨0, ![1, 1, 1]⟩, ⟨3, ![0, 2, 0]⟩, ⟨10, ![0, 0, 3]⟩] :
            List (GMTKeyframe Vec3)), kf.frame = i))) ∧
    (∃ res, add_curve_rot (fun a _ _ => a)
        ⟨GMTCurveType.ROTATION, [⟨0, 1⟩, ⟨5, 1⟩, ⟨10, 1⟩]⟩
        ⟨GMTCurveType.ROTATION, [⟨0, 1⟩, ⟨3, 1⟩, ⟨10, 1⟩]⟩ = some res ∧
      ∀ i : ℕ, (∃ kf ∈ res.keyframes, kf.frame = i) ↔
        ((∃ kf ∈ ([⟨0, 1⟩, ⟨5, 1⟩, ⟨10, 1⟩] :
            List (GMTKeyframe (Quaternion ℚ))), kf.frame = i) ∨
         (∃ kf ∈ ([⟨0, 1⟩, ⟨3, 1⟩, ⟨10, 1⟩] :
            List (GMTKeyframe (Quaternion ℚ))), kf.frame = i))) :=
  c2_merge_frame_union (fun a _ _ => a)
    ⟨GMTCurveType.LOCATION, [⟨0, ![1, 0, 0]⟩, ⟨5, ![2, 0, 0]⟩, ⟨10, ![3, 0, 0]⟩]⟩
    ⟨GMTCurveType.LOCATION, [⟨0, ![1, 1, 1]⟩, ⟨3, ![0, 2, 0]⟩, ⟨10, ![0, 0, 3]⟩]⟩
    ⟨GMTCurveType.ROTATION, [⟨0, 1⟩, ⟨5, 1⟩, ⟨10, 1⟩]⟩
    ⟨GMTCurveType.ROTATION, [⟨0, 1⟩, ⟨3, 1⟩, ⟨10, 1⟩]⟩
    rfl rfl rfl rfl (by simp) (by simp) (by simp) (by simp)
    (by constructor <;> simp) (by constructor <;> simp)
    (by constructor <;> simp) (by constructor <;> simp)

/-- C3 core: merging a non-empty sorted curve into a curve holding a single
identity keyframe at frame 0 (the seeding `add_curve` performs on an empty
target) succeeds and reproduces every original keyframe unchanged, for any
`add` with `add idv v = v` and any interpolation function. -/
theorem add_curve_core_seeded_id {V : Type} [Inhabited V]
    (add : V → V → V) (lerp : V → V → ℚ → V) (idv : V)
    (hid : ∀ v, add idv v = v) (c : List (GMTKeyframe V))
    (hc : c ≠ []) (hsc : sortedKF c) :
    ∃ res, add_curve_core add lerp [⟨0, idv⟩] c = some res ∧
      ∀ kf ∈ c, (⟨kf.frame, kf.value⟩ : GMTKeyframe V) ∈ res := by
  rw [add_curve_core, if_neg (by simp [List.isEmpty_iff, hc])]
  refine ⟨_, rfl, fun kf hkf => ?_⟩
  have hv2 : kf_lookup c kf.frame = some kf.value := kf_lookup_mem c hsc kf hkf
  refine List.mem_filterMap.2 ⟨kf.frame, List.mem_range.2 ?_, ?_⟩
  · exact Nat.lt_succ_of_le (le_trans (frame_le_end c hsc kf hkf) (le_max_right _ _))
  · by_cases h0 : kf.frame = 0
    · have hv1 : kf_lookup [(⟨0, idv⟩ : GMTKeyframe V)] kf.frame = some idv := by
        simp [kf_lookup, h0]
      simp [hv1, hv2, hid kf.value]
    · have hbeq : ((0 : ℕ) == kf.frame) = false := by
        simpa using Ne.symm h0
      have hv1 : kf_lookup [(⟨0, idv⟩ : GMTKeyframe V)] kf.frame = none := by
        simp [kf_lookup, List.find?, hbeq]
      have hlt : (0 : ℕ) < kf.frame := Nat.pos_of_ne_zero h0
      have hinterp : interp_value lerp [(⟨0, idv⟩ : GMTKeyframe V)] kf.frame = idv := by
        rw [interp_value]
        simp [kf_lookup, List.find?, hlt]
      simp [hv1, hv2, hinterp, hid kf.value]

/-- C3: merging a non-empty curve into an empty curve of the same kind via
`add_curve` succeeds — the empty target is seeded with a single identity
keyframe at frame 0 (zero vector / identity quaternion) before the dense pass
— and the result carries the original curve's value unchanged at every
original frame; stated for both kinds, the ROTATION kind for every
interpolation function `qslerp`. -/
theorem c3_merge_identity
    (qslerp : Quaternion ℚ → Quaternion ℚ → ℚ → Quaternion ℚ)
    (cl : GMTCurve Vec3) (cr : GMTCurve (Quaternion ℚ))
    (htcl : cl.type = GMTCurveType.LOCATION) (htcr : cr.type = GMTCurveType.ROTATION)
    (hcl : cl.keyframes ≠ []) (hcr : cr.keyframes ≠ [])
    (hscl : sortedKF cl.keyframes) (hscr : sortedKF cr.keyframes) :
    (∃ res, add_curve_loc ⟨GMTCurveType.LOCATION, []⟩ cl = some res ∧
      ∀ kf ∈ cl.keyframes, (⟨kf.frame, kf.value⟩ : GMTKeyframe Vec3) ∈ res.keyframes) ∧
    (∃ res, add_curve_rot qslerp ⟨GMTCurveType.ROTATION, []⟩ cr = some res ∧
      ∀ kf ∈ cr.keyframes,
        (⟨kf.frame, kf.value⟩ : GMTKeyframe (Quaternion ℚ)) ∈ res.keyframes) := by
  constructor
  · obtain ⟨res0, hres0, hmem⟩ :=
      add_curve_core_seeded_id vadd vlerp 0 (fun v => zero_add v) cl.keyframes hcl hscl
    refine ⟨⟨GMTCurveType.LOCATION, res0⟩, ?_, hmem⟩
    rw [add_curve_loc, if_pos ⟨rfl, htcl⟩]
    simp only [List.isEmpty_nil, if_pos]
    simp only [hres0, Option.map_some']
  · obtain ⟨res0, hres0, hmem⟩ :=
      add_curve_core_seeded_id qmul qslerp 1 (fun v => one_mul v) cr.keyframes hcr hscr
    refine ⟨⟨GMTCurveType.ROTATION, res0⟩, ?_, hmem⟩
    rw [add_curve_rot, if_pos ⟨rfl, htcr⟩]
    simp only [List.isEmpty_nil, if_pos]
    simp only [hres0, Option.map_some']

/-- C3 witness: a location curve with keyframes at frames 2 and 4 and a
rotation curve with a keyframe at frame 3, each merged into an empty curve of
its kind. -/
theorem c3_merge_identity_witness :
    ((⟨GMTCurveType.LOCATION, [⟨2, ![1, 2, 3]⟩, ⟨4, ![4, 5, 6]⟩]⟩ :
        GMTCurve Vec3).keyframes ≠ [] ∧
      sortedKF (⟨GMTCurveType.LOCATION, [⟨2, ![1, 2, 3]⟩, ⟨4, ![4, 5, 6]⟩]⟩ :
        GMTCurve Vec3).keyframes) ∧
    (∃ res, add_curve_loc ⟨GMTCurveType.LOCATION, []⟩
        ⟨GMTCurveType.LOCATION, [⟨2, ![1, 2, 3]⟩, ⟨4, ![4, 5, 6]⟩]⟩ = some res ∧
      ∀ kf ∈ ([⟨2, ![1, 2, 3]⟩, ⟨4, ![4, 5, 6]⟩] : List (GMTKeyframe Vec3)),
        (⟨kf.frame, kf.value⟩ : GMTKeyframe Vec3) ∈ res.keyframes) ∧
    (∃ res, add_curve_rot (fun a _ _ => a) ⟨GMTCurveType.ROTATION, []⟩
        ⟨GMTCurveType.ROTATION, [⟨3, ⟨0, 1, 0, 0⟩⟩]⟩ = some res ∧
      ∀ kf ∈ ([⟨3, ⟨0, 1, 0, 0⟩⟩] : List (GMTKeyframe (Quaternion ℚ))),
        (⟨kf.frame, kf.value⟩ : GMTKeyframe (Quaternion ℚ)) ∈ res.keyframes) := by
  obtain ⟨h1, h2⟩ := c3_merge_identity (fun a _ _ => a)
    ⟨GMTCurveType.LOCATION, [⟨2, ![1, 2, 3]⟩, ⟨4, ![4, 5, 6]⟩]⟩
    ⟨GMTCurveType.ROTATION, [⟨3, ⟨0, 1, 0, 0⟩⟩]⟩
    rfl rfl (by simp) (by simp) (by constructor <;> simp) (by simp [sortedKF])
  exact ⟨⟨by simp, by constructor <;> simp⟩, h1, h2⟩

/-- Helper: the dense merge pass succeeds on two non-empty keyframe lists. -/
theorem add_curve_core_isSome {V : Type} [Inhabited V]
    (add : V → V → V) (lerp : V → V → ℚ → V) (c o : List (GMTKeyframe V))
    (hc : c ≠ []) (ho : o ≠ []) :
    ∃ res, add_curve_core add lerp c o = some res := by
  rw [add_curve_core, if_neg (by simp [List.isEmpty_iff, hc, ho])]
  exact ⟨_, rfl⟩

/-- Helper: `add_curve` succeeds on LOCATION curves whenever the secondary
curve is non-empty (the target is seeded when empty). -/
theorem add_curve_loc_isSome (curve other : GMTCurve Vec3)
    (ht1 : curve.type = GMTCurveType.LOCATION) (ht2 : other.type = GMTCurveType.LOCATION)
    (ho : other.keyframes ≠ []) :
    ∃ res, add_curve_loc curve other = some res := by
  rw [add_curve_loc, if_pos ⟨ht1, ht2⟩]
  obtain ⟨res0, hres0⟩ := add_curve_core_isSome vadd vlerp
    (if curve.keyframes.isEmpty then [⟨0, 0⟩] else curve.keyframes) other.keyframes
    (by by_cases h : curve.keyframes = [] <;> simp [h, List.isEmpty_iff]) ho
  exact ⟨⟨curve.type, res0⟩, by simp only [hres0, Option.map_some']⟩

/-- Helper: `add_curve` succeeds on ROTATION curves whenever the secondary
curve is non-empty. -/
theorem add_curve_rot_isSome (qslerp : Quaternion ℚ → Quaternion ℚ → ℚ → Quaternion ℚ)
    (curve other : GMTCurve (Quaternion ℚ))
    (ht1 : curve.type = GMTCurveType.ROTATION) (ht2 : other.type = GMTCurveType.ROTATION)
    (ho : other.keyframes ≠ []) :
    ∃ res, add_curve_rot qslerp curve other = some res := by
  rw [add_curve_rot, if_pos ⟨ht1, ht2⟩]
  obtain ⟨res0, hres0⟩ := add_curve_core_isSome qmul qslerp
    (if curve.keyframes.isEmpty then [⟨0, 1⟩] else curve.keyframes) other.keyframes
    (by by_cases h : curve.keyframes = [] <;> simp [h, List.isEmpty_iff]) ho
  exact ⟨⟨curve.type, res0⟩, by simp only [hres0, Option.map_some']⟩

/-- C8 counterexample: with `vector_version = OLD_VECTOR`, `is_auth = True`
and both bones present, `merge_vector` resets the vector bone's curves without
adding them into the center bone: the center is returned unchanged even though
the vector bone held a non-empty location curve whose addition would have
changed the center.  This refutes the claim that the contributions are always
added whenever the version is present and both bones exist, and that the reset
happens exactly when the data has been consumed. -/
theorem c8_reset_without_add_counterexample :
    merge_vector (fun a _ _ => a)
      (some ⟨⟨GMTCurveType.LOCATION, [⟨0, ![0, 0, 0]⟩]⟩,
             ⟨GMTCurveType.ROTATION, [⟨0, 1⟩]⟩⟩)
      (some ⟨⟨GMTCurveType.LOCATION, [⟨0, ![1, 0, 0]⟩]⟩,
             ⟨GMTCurveType.ROTATION, [⟨0, 1⟩]⟩⟩)
      GMTVectorVersion.OLD_VECTOR true =
      some (some ⟨⟨GMTCurveType.LOCATION, [⟨0, ![0, 0, 0]⟩]⟩,
                  ⟨GMTCurveType.ROTATION, [⟨0, 1⟩]⟩⟩,
            some resetVectorBone) ∧
    add_curve_loc ⟨GMTCurveType.LOCATION, [⟨0, ![0, 0, 0]⟩]⟩
        ⟨GMTCurveType.LOCATION, [⟨0, ![1, 0, 0]⟩]⟩ =
      some ⟨GMTCurveType.LOCATION, [⟨0, vadd ![0, 0, 0] ![1, 0, 0]⟩]⟩ ∧
    vadd ![0, 0, 0] ![1, 0, 0] 0 ≠ (![0, 0, 0] : Vec3) 0 ∧
    ([⟨0, ![1, 0, 0]⟩] : List (GMTKeyframe Vec3)) ≠ [] :=
  ⟨rfl, rfl, by simp [vadd], by simp⟩

/-- C8 amended: `merge_vector` is a no-op when the version is `NO_VECTOR` or
either bone is missing; the vector bone's contributions are added into the
center exactly when `(OLD_VECTOR ∧ not is_auth) ∨ DRAGON_VECTOR`, and the
vector bone's curves are reset to empty curves of their own kind whenever the
version is not `NO_VECTOR` and both bones exist — including the
`OLD_VECTOR ∧ is_auth` case, where the vector data is discarded without being
added. -/
theorem c8_merge_vector_spec
    (qslerp : Quaternion ℚ → Quaternion ℚ → ℚ → Quaternion ℚ)
    (center vector : GMTBone)
    (htcl : center.location.type = GMTCurveType.LOCATION)
    (htvl : vector.location.type = GMTCurveType.LOCATION)
    (htcr : center.rotation.type = GMTCurveType.ROTATION)
    (htvr : vector.rotation.type = GMTCurveType.ROTATION)
    (hvl : vector.location.keyframes ≠ []) (hvr : vector.rotation.keyframes ≠ []) :
    (∀ a, merge_vector qslerp (some center) (some vector) GMTVectorVersion.NO_VECTOR a =
      some (some center, some vector)) ∧
    (∀ vb version a, merge_vector qslerp none vb version a = some (none, vb)) ∧
    (∀ cb version a, merge_vector qslerp cb none version a = some (cb, none)) ∧
    merge_vector qslerp (some center) (some vector) GMTVectorVersion.OLD_VECTOR true =
      some (some center, some resetVectorBone) ∧
    (∃ L R, add_curve_loc center.location vector.location = some L ∧
      add_curve_rot qslerp center.rotation vector.rotation = some R ∧
      merge_vector qslerp (some center) (some vector) GMTVectorVersion.OLD_VECTOR false =
        some (some ⟨L, R⟩, some resetVectorBone) ∧
      ∀ a, merge_vector qslerp (some center) (some vector) GMTVectorVersion.DRAGON_VECTOR a =
        some (some ⟨L, R⟩, some resetVectorBone)) := by
  obtain ⟨L, hL⟩ := add_curve_loc_isSome center.location vector.location htcl htvl hvl
  obtain ⟨R, hR⟩ := add_curve_rot_isSome qslerp center.rotation vector.rotation htcr htvr hvr
  refine ⟨fun a => rfl, fun vb version a => ?_, fun cb version a => ?_, rfl,
    L, R, hL, hR, ?_, fun a => ?_⟩
  · rfl
  · cases cb <;> rfl
  · simp [merge_vector, hL, hR]
  · simp [merge_vector, hL, hR]

/-- C8 witness: a concrete center/vector pair exercising the amended
characterization. -/
theorem c8_merge_vector_spec_witness :
    (([⟨0, ![1, 0, 0]⟩] : List (GMTKeyframe Vec3)) ≠ [] ∧
      ([⟨0, 1⟩] : List (GMTKeyframe (Quaternion ℚ))) ≠ []) ∧
    ((∀ a, merge_vector (fun a _ _ => a)
      (some ⟨⟨GMTCurveType.LOCATION, [⟨0, ![0, 1, 0]⟩]⟩,
             ⟨GMTCurveType.ROTATION, [⟨0, 1⟩]⟩⟩)
      (some ⟨⟨GMTCurveType.LOCATION, [⟨0, ![1, 0, 0]⟩]⟩,
             ⟨GMTCurveType.ROTATION, [⟨0, 1⟩]⟩⟩)
      GMTVectorVersion.NO_VECTOR a =
      some (some ⟨⟨GMTCurveType.LOCATION, [⟨0, ![0, 1, 0]⟩]⟩,
                  ⟨GMTCurveType.ROTATION, [⟨0, 1⟩]⟩⟩,
            some ⟨⟨GMTCurveType.LOCATION, [⟨0, ![1, 0, 0]⟩]⟩,
                  ⟨GMTCurveType.ROTATION, [⟨0, 1⟩]⟩⟩)) ∧
    (∀ vb version a, merge_vector (fun a _ _ => a) none vb version a = some (none, vb)) ∧
    (∀ cb version a, merge_vector (fun a _ _ => a) cb none version a = some (cb, none)) ∧
    merge_vector (fun a _ _ => a)
      (some ⟨⟨GMTCurveType.LOCATION, [⟨0, ![0, 1, 0]⟩]⟩,
             ⟨GMTCurveType.ROTATION, [⟨0, 1⟩]⟩⟩)
      (some ⟨⟨GMTCurveType.LOCATION, [⟨0, ![1, 0, 0]⟩]⟩,
             ⟨GMTCurveType.ROTATION, [⟨0, 1⟩]⟩⟩)
      GMTVectorVersion.OLD_VECTOR true =
      some (some ⟨⟨GMTCurveType.LOCATION, [⟨0, ![0, 1, 0]⟩]⟩,
                  ⟨GMTCurveType.ROTATION, [⟨0, 1⟩]⟩⟩,
            some resetVectorBone) ∧
    (∃ L R, add_curve_loc ⟨GMTCurveType.LOCATION, [⟨0, ![0, 1, 0]⟩]⟩
        ⟨GMTCurveType.LOCATION, [⟨0, ![1, 0, 0]⟩]⟩ = some L ∧
      add_curve_rot (fun a _ _ => a) ⟨GMTCurveType.ROTATION, [⟨0, 1⟩]⟩
        ⟨GMTCurveType.ROTATION, [⟨0, 1⟩]⟩ = some R ∧
      merge_vector (fun a _ _ => a)
        (some ⟨⟨GMTCurveType.LOCATION, [⟨0, ![0, 1, 0]⟩]⟩,
               ⟨GMTCurveType.ROTATION, [⟨0, 1⟩]⟩⟩)
        (some ⟨⟨GMTCurveType.LOCATION, [⟨0, ![1, 0, 0]⟩]⟩,
               ⟨GMTCurveType.ROTATION, [⟨0, 1⟩]⟩⟩)
        GMTVectorVersion.OLD_VECTOR false =
        some (some ⟨L, R⟩, some resetVectorBone) ∧
      ∀ a, merge_vector (fun a _ _ => a)
        (some ⟨⟨GMTCurveType.LOCATION, [⟨0, ![0, 1, 0]⟩]⟩,
               ⟨GMTCurveType.ROTATION, [⟨0, 1⟩]⟩⟩)
        (some ⟨⟨GMTCurveType.LOCATION, [⟨0, ![1, 0, 0]⟩]⟩,
               ⟨GMTCurveType.ROTATION, [⟨0, 1⟩]⟩⟩)
        GMTVectorVersion.DRAGON_VECTOR a =
        some (some ⟨L, R⟩, some resetVectorBone))) :=
  ⟨⟨by simp, by simp⟩,
    c8_merge_vector_spec (fun a _ _ => a)
      ⟨⟨GMTCurveType.LOCATION, [⟨0, ![0, 1, 0]⟩]⟩, ⟨GMTCurveType.ROTATION, [⟨0, 1⟩]⟩⟩
      ⟨⟨GMTCurveType.LOCATION, [⟨0, ![1, 0, 0]⟩]⟩, ⟨GMTCurveType.ROTATION, [⟨0, 1⟩]⟩⟩
      rfl rfl rfl rfl (by simp) (by simp)⟩

/-! ### Export-side constant-interpolation duplication
(exporter.py, `GMTExporter.make_curve`, lines 330-395) -/

/-- Python `list.insert(n, x)`: insert before index `n`, appending when the
index is past the end. -/
def listInsert {α : Type} (l : List α) (n : ℕ) (x : α) : List α :=
  match n, l with
  | 0, l => x :: l
  | _ + 1, [] => [x]
  | n + 1, a :: l => a :: listInsert l n x
termination_by structural n

/-- Which value branch `make_curve` took (3 axes = Position, 4 axes =
Rotation, 1 axis = Pat1). -/
inductive CurveKind where
  | posVec3
  | rotQuat
  | pat1
deriving DecidableEq, Repr

/-- `interpolate` stays `True` except in the Pat1 branch, which sets
`interpolate = False` (exporter.py lines 345, 374). -/
def make_curve_interpolate : CurveKind → Bool
  | CurveKind.pat1 => false
  | _ => true

/-- The combined per-keyframe constant flag (exporter.py lines 378-384):
start from all-`True` of length `n` and AND in, axis by axis,
`interpolation == 0` (`'CONSTANT' = 0`); Python's two-list `map` truncates
like `zipWith`. -/
def combinedPol (n : ℕ) (axisPols : List (List ℤ)) : List Bool :=
  axisPols.foldl
    (fun pol axis_pol => List.zipWith (fun a b => a && decide (b = 0)) pol axis_pol)
    (List.replicate n true)

/-- One iteration of the duplication loop (exporter.py lines 387-393), on the
state `(frames, values, j)`: with `k = i + j`, when keyframe `i` is uniformly
constant-interpolated and the frame gap to the next keyframe exceeds 1, insert
a copy of `values[k]` at `k+1` and the frame `frames[k+1] - 1` at `k+1`, and
increment `j`. -/
def dupStep {V : Type} [Inhabited V] (pol : List Bool) (s : List ℕ × List V × ℕ)
    (i : ℕ) : List ℕ × List V × ℕ :=
  let k := i + s.2.2
  if pol.getD i false = true ∧ s.1.getD (k + 1) 0 - s.1.getD k 0 > 1 then
    (listInsert s.1 (k + 1) (s.1.getD (k + 1) 0 - 1),
     listInsert s.2.1 (k + 1) (s.2.1.getD k default), s.2.2 + 1)
  else s

/-- The duplication loop: `for i in range(len(pol) - 1)` over `dupStep`,
returning the final frame and value lists. -/
def constDupLoop {V : Type} [Inhabited V] (pol : List Bool) (frames : List ℕ)
    (values : List V) : List ℕ × List V :=
  let st := (List.range (pol.length - 1)).foldl (dupStep pol) (frames, values, 0)
  (st.1, st.2.1)

/-- `make_curve`'s keyframe/value post-processing: the duplication loop for
interpolated kinds, the identity for Pat1 (exporter.py lines 376-393). -/
def make_curve_keyframes {V : Type} [Inhabited V] (kind : CurveKind)
    (frames : List ℕ) (values : List V) (axisPols : List (List ℤ)) :
    List ℕ × List V :=
  if make_curve_interpolate kind then
    constDupLoop (combinedPol frames.length axisPols) frames values
  else (frames, values)

/-- The claim's description of the duplicated frame list: for every
consecutive pair with a constant flag and a gap above 1, one extra frame
`f2 - 1` is inserted between them. -/
def dupFrames : List Bool → List ℕ → List ℕ
  | b :: bs, f :: f2 :: fs =>
    if b = true ∧ f2 - f > 1 then f :: (f2 - 1) :: dupFrames bs (f2 :: fs)
    else f :: dupFrames bs (f2 :: fs)
  | _, fs => fs

/-- The claim's description of the duplicated value list: the extra keyframe
carries the previous keyframe's value. -/
def dupValues {V : Type} : List Bool → List ℕ → List V → List V
  | b :: bs, f :: f2 :: fs, v :: vs =>
    if b = true ∧ f2 - f > 1 then v :: v :: dupValues bs (f2 :: fs) vs
    else v :: dupValues bs (f2 :: fs) vs
  | _, _, vs => vs

/-- Helper: `getD` on an append, index the left length plus an offset. -/
theorem getD_append_right {α : Type} (l : List α) :
    ∀ (l' : List α) (n : ℕ) (d : α), (l ++ l').getD (l.length + n) d = l'.getD n d := by
  induction l with
  | nil => intro l' n d; simp
  | cons a t ih =>
    intro l' n d
    have h : (a :: t).length + n = (t.length + n) + 1 := by
      simp only [List.length_cons]
      omega
    rw [h]
    simpa using ih l' n d

/-- Helper: `listInsert` past a fixed prefix. -/
theorem listInsert_append {α : Type} (l : List α) :
    ∀ (l' : List α) (n : ℕ) (x : α),
      listInsert (l ++ l') (l.length + n) x = l ++ listInsert l' n x := by
  induction l with
  | nil =>
    intro l' n x
    rw [List.nil_append, List.nil_append, List.length_nil, Nat.zero_add]
  | cons a t ih =>
    intro l' n x
    have h : (a :: t).length + n = (t.length + n) + 1 := by
      simp only [List.length_cons]
      omega
    rw [h]
    show a :: listInsert (t ++ l') (t.length + n) x = a :: (t ++ listInsert l' n x)
    rw [ih]

/-- Helper: the loop invariant of the duplication pass: starting at loop index
`i` with `j` insertions already done and a finalized prefix of length `i + j`,
the remaining iterations produce exactly the recursive description
`dupFrames`/`dupValues` of the remaining suffix. -/
theorem constDup_go {V : Type} [Inhabited V] (pol : List Bool) :
    ∀ (rb : List Bool) (rf : List ℕ) (rv : List V) (i j : ℕ)
      (df : List ℕ) (dv : List V),
      rf.length = rb.length → rv.length = rb.length →
      df.length = i + j → dv.length = i + j →
      (∀ m, pol.getD (i + m) false = rb.getD m false) →
      ∃ j2, (List.range' i (rb.length - 1)).foldl (dupStep pol) (df ++ rf, dv ++ rv, j) =
        (df ++ dupFrames rb rf, dv ++ dupValues rb rf rv, j2) := by
  intro rb
  induction rb with
  | nil =>
    intro rf rv i j df dv hrf hrv hdf hdv hpol
    obtain rfl : rf = [] := List.length_eq_zero.1 (by simpa using hrf)
    obtain rfl : rv = [] := List.length_eq_zero.1 (by simpa using hrv)
    exact ⟨j, by simp [dupFrames, dupValues]⟩
  | cons b rbt ih =>
    intro rf rv i j df dv hrf hrv hdf hdv hpol
    cases rbt with
    | nil =>
      match rf, hrf, rv, hrv with
      | [f], _, [v], _ =>
        exact ⟨j, by simp [dupFrames, dupValues]⟩
    | cons b2 rbt2 =>
      match rf, hrf, rv, hrv with
      | f :: f2 :: rft2, hrf, v :: rvt, hrv =>
        have hlen : (b :: b2 :: rbt2).length - 1 = rbt2.length + 1 := by simp
        rw [hlen, List.range'_succ, List.foldl_cons]
        have hb : pol.getD i false = b := by simpa using hpol 0
        have hgets : (df ++ f :: f2 :: rft2).getD (i + j) 0 = f := by
          rw [← hdf, show df.length = df.length + 0 from rfl, getD_append_right]
          rfl
        have hgets2 : (df ++ f :: f2 :: rft2).getD (i + j + 1) 0 = f2 := by
          rw [← hdf, getD_append_right]
          rfl
        have hstep : dupStep pol (df ++ f :: f2 :: rft2, dv ++ v :: rvt, j) i =
            if b = true ∧ f2 - f > 1 then
              (df ++ f :: (f2 - 1) :: f2 :: rft2, dv ++ v :: v :: rvt, j + 1)
            else (df ++ f :: f2 :: rft2, dv ++ v :: rvt, j) := by
          rw [dupStep]
          simp only [hb, hgets, hgets2]
          by_cases hc : b = true ∧ f2 - f > 1
          · rw [if_pos hc, if_pos hc]
            have hvget : (dv ++ v :: rvt).getD (i + j) default = v := by
              rw [← hdv, show dv.length = dv.length + 0 from rfl, getD_append_right]
              rfl
            have hfi : listInsert (df ++ f :: f2 :: rft2) (i + j + 1) (f2 - 1) =
                df ++ f :: (f2 - 1) :: f2 :: rft2 := by
              rw [← hdf, listInsert_append]
              rfl
            have hvi : listInsert (dv ++ v :: rvt) (i + j + 1) v =
                dv ++ v :: v :: rvt := by
              rw [← hdv, listInsert_append]
              rfl
            rw [hvget, hfi, hvi]
          · rw [if_neg hc, if_neg hc]
        rw [hstep]
        by_cases hc : b = true ∧ f2 - f > 1
        · rw [if_pos hc]
          obtain ⟨j2, hrec⟩ := ih (f2 :: rft2) rvt (i + 1) (j + 1)
            (df ++ [f, f2 - 1]) (dv ++ [v, v])
            (by simp only [List.length_cons] at hrf ⊢; omega)
            (by simp only [List.length_cons] at hrv ⊢; omega)
            (by simp only [List.length_append, List.length_cons, List.length_nil]; omega)
            (by simp only [List.length_append, List.length_cons, List.length_nil]; omega)
            (fun m => by
              have h1 := hpol (m + 1)
              rw [show i + (m + 1) = i + 1 + m from by omega] at h1
              simpa using h1)
          refine ⟨j2, ?_⟩
          have e1 : df ++ f :: (f2 - 1) :: f2 :: rft2 = (df ++ [f, f2 - 1]) ++ f2 :: rft2 := by
            simp
          have e2 : dv ++ v :: v :: rvt = (dv ++ [v, v]) ++ rvt := by
            simp
          have e3 : (b2 :: rbt2).length - 1 = rbt2.length := by simp
          rw [e1, e2, ← e3, hrec]
          rw [dupFrames, dupValues, if_pos hc, if_pos hc]
          simp
        · rw [if_neg hc]
          obtain ⟨j2, hrec⟩ := ih (f2 :: rft2) rvt (i + 1) j (df ++ [f]) (dv ++ [v])
            (by simp only [List.length_cons] at hrf ⊢; omega)
            (by simp only [List.length_cons] at hrv ⊢; omega)
            (by simp only [List.length_append, List.length_cons, List.length_nil]; omega)
            (by simp only [List.length_append, List.length_cons, List.length_nil]; omega)
            (fun m => by
              have h1 := hpol (m + 1)
              rw [show i + (m + 1) = i + 1 + m from by omega] at h1
              simpa using h1)
          refine ⟨j2, ?_⟩
          have e1 : df ++ f :: f2 :: rft2 = (df ++ [f]) ++ f2 :: rft2 := by simp
          have e2 : dv ++ v :: rvt = (dv ++ [v]) ++ rvt := by simp
          have e3 : (b2 :: rbt2).length - 1 = rbt2.length := by simp
          rw [e1, e2, ← e3, hrec]
          rw [dupFrames, dupValues, if_neg hc, if_neg hc]
          simp

/-- Helper: the imperative duplication loop equals its recursive
description. -/
theorem constDupLoop_eq {V : Type} [Inhabited V] (pol : List Bool)
    (frames : List ℕ) (values : List V)
    (h1 : frames.length = pol.length) (h2 : values.length = pol.length) :
    constDupLoop pol frames values =
      (dupFrames pol frames, dupValues pol frames values) := by
  obtain ⟨j2, h⟩ := constDup_go pol pol frames values 0 0 [] []
    h1 h2 rfl rfl (fun m => by simp)
  rw [constDupLoop, List.range_eq_range']
  simp only [List.nil_append] at h
  rw [h]

/-- Helper: `combinedPol` has one flag per keyframe when every axis list
does. -/
theorem combinedPol_length (n : ℕ) (axisPols : List (List ℤ))
    (h : ∀ ap ∈ axisPols, ap.length = n) : (combinedPol n axisPols).length = n := by
  rw [combinedPol]
  suffices haux : ∀ (l : List (List ℤ)) (acc : List Bool), (∀ ap ∈ l, ap.length = n) →
      acc.length = n →
      (l.foldl (fun pol axis_pol =>
        List.zipWith (fun a b => a && decide (b = 0)) pol axis_pol) acc).length = n by
    exact haux axisPols (List.replicate n true) h (by simp)
  intro l
  induction l with
  | nil => intro acc _ hacc; simpa using hacc
  | cons ap t ih =>
    intro acc hl hacc
    rw [List.foldl_cons]
    exact ih _ (fun x hx => hl x (by simp [hx]))
      (by rw [List.length_zipWith, hacc, hl ap (by simp)]; omega)

/-- C4: for every interpolated (non-Pat1) curve, the export-side duplication
pass of `make_curve` inserts, for exactly each pair of consecutive source
keyframes that is uniformly constant-interpolated (`interpolation == 0` on
every axis) with a frame gap above 1, one extra keyframe one frame before the
next keyframe carrying the previous keyframe's value — the output is the
interleaving described by `dupFrames`/`dupValues`; for Pat1 curves the frames
and values pass through unchanged. -/
theorem c4_constant_dup {V : Type} [Inhabited V] (kind : CurveKind)
    (frames : List ℕ) (values : List V) (axisPols : List (List ℤ))
    (hv : values.length = frames.length)
    (hap : ∀ ap ∈ axisPols, ap.length = frames.length) :
    (kind ≠ CurveKind.pat1 →
      make_curve_keyframes kind frames values axisPols =
        (dupFrames (combinedPol frames.length axisPols) frames,
         dupValues (combinedPol frames.length axisPols) frames values)) ∧
    make_curve_keyframes CurveKind.pat1 frames values axisPols = (frames, values) := by
  constructor
  · intro hkind
    have hint : make_curve_interpolate kind = true := by
      cases kind with
      | posVec3 => rfl
      | rotQuat => rfl
      | pat1 => exact absurd rfl hkind
    rw [make_curve_keyframes, hint, if_pos rfl]
    exact constDupLoop_eq _ frames values
      (by rw [combinedPol_length frames.length axisPols hap])
      (by rw [combinedPol_length frames.length axisPols hap, hv])
  · rfl

/-- C4 witness: the spec's concrete example — Position keyframes at frames 0
and 10 under constant interpolation on all three axes encode as frames
0, 9, 10 with the value at 9 equal to the value at 0; the same input under the
Pat1 branch is left untouched. -/
theorem c4_constant_dup_witness :
    (([![1, 2, 3], ![4, 5, 6]] : List Vec3).length = ([0, 10] : List ℕ).length ∧
      ∀ ap ∈ ([[0, 0], [0, 0], [0, 0]] : List (List ℤ)),
        ap.length = ([0, 10] : List ℕ).length) ∧
    (CurveKind.posVec3 ≠ CurveKind.pat1 →
      make_curve_keyframes CurveKind.posVec3 [0, 10]
          ([![1, 2, 3], ![4, 5, 6]] : List Vec3) [[0, 0], [0, 0], [0, 0]] =
        (dupFrames (combinedPol ([0, 10] : List ℕ).length [[0, 0], [0, 0], [0, 0]]) [0, 10],
         dupValues (combinedPol ([0, 10] : List ℕ).length [[0, 0], [0, 0], [0, 0]]) [0, 10]
           ([![1, 2, 3], ![4, 5, 6]] : List Vec3))) ∧
    make_curve_keyframes CurveKind.pat1 [0, 10]
        ([![1, 2, 3], ![4, 5, 6]] : List Vec3) [[0, 0], [0, 0], [0, 0]] =
      ([0, 10], [![1, 2, 3], ![4, 5, 6]]) ∧
    dupFrames (combinedPol ([0, 10] : List ℕ).length [[0, 0], [0, 0], [0, 0]]) [0, 10] =
      [0, 9, 10] ∧
    dupValues (combinedPol ([0, 10] : List ℕ).length [[0, 0], [0, 0], [0, 0]]) [0, 10]
        ([![1, 2, 3], ![4, 5, 6]] : List Vec3) =
      [![1, 2, 3], ![1, 2, 3], ![4, 5, 6]] :=
  ⟨⟨rfl, by decide⟩,
    (c4_constant_dup CurveKind.posVec3 [0, 10] [![1, 2, 3], ![4, 5, 6]]
      [[0, 0], [0, 0], [0, 0]] rfl (by decide)).1,
    (c4_constant_dup CurveKind.posVec3 [0, 10] [![1, 2, 3], ![4, 5, 6]]
      [[0, 0], [0, 0], [0, 0]] rfl (by decide)).2,
    rfl, rfl⟩

end GMTBlender
